import Mathlib

/-!
Verification of the concurrent log-processing service against its design
specification.

The Go source is shallowly embedded as follows.

* `internal/models/log.go`: `LogLevel` (a Go string type) becomes `String`;
  `time.Time` timestamps become `Int` (the zero `time.Time` is the integer `0`,
  `IsZero` is `= 0`, `Before`/`After` are `<`/`>`); `LogEntry` and `LogSummary`
  become structures.  A Go count map `map[K]int` mutated only by `m[k]++` is
  embedded as the multiset of keys incremented so far: the map's value at `k`
  is the multiset count of `k`, the sum of the map's values is the multiset
  cardinality, and Go map (extensional) equality is multiset equality.
  `processedIDs map[string]bool`, which only ever stores `true`, is embedded
  as a `Finset String`.
* `internal/analyzer/analyzer.go`: `Process` and `GetSummary` become pure
  state transformers on `LogAnalyzer`.  Every `Process`/`GetSummary` call in
  the Go program runs under the analyzer's single mutex, so any execution is
  some finite sequence of atomic calls; `ProcessList` folds such a sequence.
* `internal/processor/processor.go`: the channel `processingCh` becomes the
  list of records buffered in it plus a `processingChClosed` flag (the source
  never sets it: the `close(p.processingCh)` call is commented out), and the
  `done` channel becomes a `doneClosed` flag whose second close is the Go
  runtime panic.  `Start`'s producer goroutines are serialized in file order
  (they are joined by `wg.Wait` before `Start` returns); the counters
  `workersStarted`, `producersStarted` and `reportedErrors` record the `go`
  statements and error prints that `Start` performs.  `drainQueue` is the
  combined effect of the five `worker` goroutines consuming the buffered
  records (each worker only calls `analyzer.Process` per record).
* The aliasing behaviour of `GetSummary`'s deep copy is additionally embedded
  with an explicit heap of map objects (`AnalyzerHeap`): map values live in a
  store addressed by `Nat`, `make(map...)` allocates a fresh address, and the
  copy loops of `GetSummary` write the copied contents to fresh addresses.
-/

namespace Models

/-- Go: `type LogLevel string` (internal/models/log.go). -/
abbrev LogLevel := String

/-- Go constant `DEBUG LogLevel = "DEBUG"`. -/
def DEBUG : LogLevel := "DEBUG"

/-- Go constant `INFO LogLevel = "INFO"`. -/
def INFO : LogLevel := "INFO"

/-- Go constant `WARNING LogLevel = "WARNING"`. -/
def WARNING : LogLevel := "WARNING"

/-- Go constant `ERROR LogLevel = "ERROR"`. -/
def ERROR : LogLevel := "ERROR"

/-- Go constant `FATAL LogLevel = "FATAL"`. -/
def FATAL : LogLevel := "FATAL"

/-- Go struct `LogEntry` (internal/models/log.go).  `Timestamp` embeds
`time.Time` as an integer instant; the zero `time.Time` is `0`. -/
structure LogEntry where
  ID : String
  Timestamp : Int
  Level : LogLevel
  Service : String
  Message : String
  Source : String
  deriving DecidableEq

/-- The anonymous `TimeRange` struct nested in Go's `LogSummary`. -/
structure TimeRange where
  Start : Int
  End : Int
  deriving DecidableEq

/-- Go struct `LogSummary` (internal/models/log.go).  `ByLevel` and
`ByService` are count maps embedded as multisets of keys (see file header). -/
structure LogSummary where
  TotalEntries : Nat
  ByLevel : Multiset LogLevel
  ByService : Multiset String
  TimeRange : TimeRange
  deriving DecidableEq

/-- Go `NewLogSummary`: fresh summary with empty maps and zero time range. -/
def NewLogSummary : LogSummary :=
  { TotalEntries := 0
    ByLevel := 0
    ByService := 0
    TimeRange := { Start := 0, End := 0 } }

end Models

namespace Analyzer

/-- Go struct `LogAnalyzer` (internal/analyzer/analyzer.go): the summary plus
the dedup set `processedIDs`. -/
structure LogAnalyzer where
  summary : Models.LogSummary
  processedIDs : Finset String
  deriving DecidableEq

/-- Go `NewLogAnalyzer`. -/
def NewLogAnalyzer : LogAnalyzer :=
  { summary := Models.NewLogSummary
    processedIDs := ∅ }

/-- The time-range start update in `Process`:
`if a.summary.TimeRange.Start.IsZero() || entry.Timestamp.Before(Start) { Start = entry.Timestamp }`. -/
def updateStart (s t : Int) : Int :=
  if s = 0 ∨ t < s then t else s

/-- The time-range end update in `Process`:
`if a.summary.TimeRange.End.IsZero() || entry.Timestamp.After(End) { End = entry.Timestamp }`. -/
def updateEnd (s t : Int) : Int :=
  if s = 0 ∨ s < t then t else s

/-- Go `(*LogAnalyzer).Process` (internal/analyzer/analyzer.go, lines 27-55):
under the mutex, skip an already-processed ID, otherwise bump the total and
the two count maps, widen the time range, and record the ID. -/
def Process (a : LogAnalyzer) (entry : Models.LogEntry) : LogAnalyzer :=
  if entry.ID ∈ a.processedIDs then
    a
  else
    { summary :=
        { TotalEntries := a.summary.TotalEntries + 1
          ByLevel := entry.Level ::ₘ a.summary.ByLevel
          ByService := entry.Service ::ₘ a.summary.ByService
          TimeRange :=
            { Start := updateStart a.summary.TimeRange.Start entry.Timestamp
              End := updateEnd a.summary.TimeRange.End entry.Timestamp } }
      processedIDs := insert entry.ID a.processedIDs }

/-- A finite sequence of `Process` calls (each call is atomic under the
analyzer's mutex, so every concurrent execution is some such sequence). -/
def ProcessList (a : LogAnalyzer) (l : List Models.LogEntry) : LogAnalyzer :=
  l.foldl Process a

/-- Go `(*LogAnalyzer).GetSummary` (analyzer.go, lines 73-93), at the level of
summary values: the returned copy reproduces every field of the internal
summary (map contents, total, both time-range bounds). -/
def GetSummary (a : LogAnalyzer) : Models.LogSummary :=
  { TotalEntries := a.summary.TotalEntries
    ByLevel := a.summary.ByLevel
    ByService := a.summary.ByService
    TimeRange := { Start := a.summary.TimeRange.Start, End := a.summary.TimeRange.End } }

/-- The sublist of records that are not dropped by deduplication when the
dedup set starts as `seen`: the first record of each not-yet-seen ID. -/
def firstOccurrences (seen : Finset String) : List Models.LogEntry → List Models.LogEntry
  | [] => []
  | e :: rest =>
    if e.ID ∈ seen then firstOccurrences seen rest
    else e :: firstOccurrences (insert e.ID seen) rest

end Analyzer

namespace Processor

/-- One call of `decoder.Decode(&entry)` in `processFile` either yields an
entry or fails (`io.EOF` is the end of the list). -/
inductive DecodeItem
  | ok (entry : Models.LogEntry)
  | bad
  deriving DecidableEq

/-- One log file as the external decoder presents it to `processFile`: its
base name and the sequence of decode results. -/
structure LogFile where
  name : String
  items : List DecodeItem
  deriving DecidableEq

/-- The two fatal start errors `Start` can return (processor.go, lines 38-46):
a `filepath.Glob` failure, or zero matching files. -/
inductive ProcError
  | globFailed
  | noFilesFound
  deriving DecidableEq

/-- Go struct `LogProcessor` (internal/processor/processor.go).
`processingCh` is the buffered content of the channel and
`processingChClosed` its closed state (the source never closes it: the
`close(p.processingCh)` call at line 75 is commented out).  `doneClosed` is
the closed state of the `done` channel.  `workersStarted`,
`producersStarted` and `reportedErrors` record the `go p.worker()` and
producer `go` statements and the per-file error prints that `Start`
performs. -/
structure LogProcessor where
  analyzer : Analyzer.LogAnalyzer
  inputDir : String
  batchSize : Nat
  processingCh : List Models.LogEntry
  processingChClosed : Bool
  doneClosed : Bool
  workersStarted : Nat
  producersStarted : Nat
  reportedErrors : Nat
  deriving DecidableEq

/-- Go `NewLogProcessor`. -/
def NewLogProcessor (inputDir : String) : LogProcessor :=
  { analyzer := Analyzer.NewLogAnalyzer
    inputDir := inputDir
    batchSize := 100
    processingCh := []
    processingChClosed := false
    doneClosed := false
    workersStarted := 0
    producersStarted := 0
    reportedErrors := 0 }

/-- `entry.Source = fileName` in the decode loop of `processFile`. -/
def setSource (fileName : String) (e : Models.LogEntry) : Models.LogEntry :=
  { e with Source := fileName }

/-- The decode loop of `processFile` (processor.go, lines 93-107): decode
every entry, tagging it with the file name; a decode failure aborts the whole
file (`none`), before anything has been sent to the channel. -/
def decodeEntries (fileName : String) : List DecodeItem → Option (List Models.LogEntry)
  | [] => some []
  | DecodeItem.ok e :: rest => (decodeEntries fileName rest).map (fun es => setSource fileName e :: es)
  | DecodeItem.bad :: _ => none

/-- Go `(*LogProcessor).processFile` (processor.go, lines 84-126): decode the
whole file first; on a decode error return the error with nothing enqueued;
on success send every entry to `processingCh` in order (the batching loop at
lines 110-123 slices `entries` into consecutive batches and sends each batch
in order, so its net effect on the channel is to append all entries in file
order).  `some ()` in the second component is a returned error. -/
def processFile (p : LogProcessor) (file : LogFile) : LogProcessor × Option Unit :=
  match decodeEntries file.name file.items with
  | none => (p, some ())
  | some entries => ({ p with processingCh := p.processingCh ++ entries }, none)

/-- Go `(*LogProcessor).Start` (processor.go, lines 38-81).  The
`filepath.Glob` result is supplied by the environment: `none` is a glob
failure, `some files` the matched files.  On glob failure or zero files,
`Start` returns the fatal error before any worker or producer `go` statement.
Otherwise it starts 5 workers, runs one producer per file (the producers are
joined by `wg.Wait()`, and each `processFile` error is printed, not
returned), and returns `nil` — without ever closing `processingCh` (the
`close` at line 75 is commented out) and without joining the workers (only a
100 ms sleep).  `startStep` is one producer's serialized contribution: launch
the producer, run `processFile`, print (count) its error if any. -/
def startStep (st : LogProcessor) (f : LogFile) : LogProcessor :=
  let st1 := { st with producersStarted := st.producersStarted + 1 }
  match processFile st1 f with
  | (st2, some _) => { st2 with reportedErrors := st2.reportedErrors + 1 }
  | (st2, none) => st2

/-- Go `(*LogProcessor).Start` itself (see `startStep` for the producer
loop body). -/
def Start (p : LogProcessor) (globResult : Option (List LogFile)) :
    LogProcessor × Option ProcError :=
  match globResult with
  | none => (p, some ProcError.globFailed)
  | some files =>
    if files = [] then
      (p, some ProcError.noFilesFound)
    else
      (files.foldl startStep { p with workersStarted := 5 }, none)

/-- The combined effect of the `worker` goroutines (processor.go, lines
129-135) consuming the records currently buffered in `processingCh`: each
buffered record is handed to `analyzer.Process`. -/
def drainQueue (p : LogProcessor) : LogProcessor :=
  { p with
    analyzer := Analyzer.ProcessList p.analyzer p.processingCh
    processingCh := [] }

/-- A `worker`'s `for entry := range p.processingCh` loop can only terminate
once the channel has been closed (and drained); this is the exit condition of
the range loop. -/
def workersCanExit (p : LogProcessor) : Bool :=
  p.processingChClosed

/-- Go `(*LogProcessor).GetSummary` (processor.go, lines 138-140). -/
def GetSummary (p : LogProcessor) : Models.LogSummary :=
  Analyzer.GetSummary p.analyzer

/-- Go `(*LogProcessor).Stop` (processor.go, lines 143-146): `close(p.done)`.
Closing an already-closed channel is a Go runtime panic, embedded as `none`. -/
def Stop (p : LogProcessor) : Option LogProcessor :=
  if p.doneClosed then none else some { p with doneClosed := true }

/-- True of a file whose decode fails (used to count `Start`'s error prints). -/
def fileFails (f : LogFile) : Bool :=
  match decodeEntries f.name f.items with
  | none => true
  | some _ => false

/-- The entries a file contributes to the channel: all of them on a clean
decode, none on a decode failure. -/
def fileEntries (f : LogFile) : List Models.LogEntry :=
  match decodeEntries f.name f.items with
  | none => []
  | some es => es

end Processor

namespace AnalyzerHeap

/-!
Heap-level embedding of `analyzer.go`, used to state the aliasing content of
`GetSummary`'s deep copy: Go map values are heap objects, a `LogSummary`
holds references to its two maps, `make(map...)` allocates a fresh address,
and map mutation writes through a reference.
-/

/-- A heap of count-map objects (each embedded as a multiset of keys, see the
file header), addressed by allocation order. -/
structure Heap where
  store : Nat → Multiset String
  next : Nat

/-- Mutate the map object at `addr`. -/
def Heap.write (h : Heap) (addr : Nat) (m : Multiset String) : Heap :=
  { h with store := Function.update h.store addr m }

/-- `make(map...)`: allocate a fresh empty map, returning its address. -/
def Heap.alloc (h : Heap) : Heap × Nat :=
  ({ store := Function.update h.store h.next 0, next := h.next + 1 }, h.next)

/-- A `LogSummary` as it sits in a Go value: scalar fields by value, the two
maps by reference into the heap. -/
structure SummaryRef where
  TotalEntries : Nat
  ByLevelRef : Nat
  ByServiceRef : Nat
  TimeRange : Models.TimeRange
  deriving DecidableEq

/-- The summary value a `SummaryRef` denotes in a heap (what a reader of the
struct and its maps observes). -/
def readSummary (h : Heap) (s : SummaryRef) : Models.LogSummary :=
  { TotalEntries := s.TotalEntries
    ByLevel := h.store s.ByLevelRef
    ByService := h.store s.ByServiceRef
    TimeRange := s.TimeRange }

/-- Heap-level `LogAnalyzer`: its summary holds references to the two count
maps. -/
structure LogAnalyzerH where
  heap : Heap
  summary : SummaryRef
  processedIDs : Finset String

/-- Heap-level `NewLogAnalyzer`: `NewLogSummary` allocates the two empty maps
(at addresses 0 and 1). -/
def NewLogAnalyzerH : LogAnalyzerH :=
  { heap := { store := fun _ => 0, next := 2 }
    summary :=
      { TotalEntries := 0
        ByLevelRef := 0
        ByServiceRef := 1
        TimeRange := { Start := 0, End := 0 } }
    processedIDs := ∅ }

/-- Heap-level `Process`: identical logic to `Analyzer.Process`, but the two
map increments write through the summary's references. -/
def ProcessH (a : LogAnalyzerH) (entry : Models.LogEntry) : LogAnalyzerH :=
  if entry.ID ∈ a.processedIDs then
    a
  else
    let h1 := a.heap.write a.summary.ByLevelRef
      (entry.Level ::ₘ a.heap.store a.summary.ByLevelRef)
    let h2 := h1.write a.summary.ByServiceRef
      (entry.Service ::ₘ h1.store a.summary.ByServiceRef)
    { heap := h2
      summary :=
        { a.summary with
          TotalEntries := a.summary.TotalEntries + 1
          TimeRange :=
            { Start := Analyzer.updateStart a.summary.TimeRange.Start entry.Timestamp
              End := Analyzer.updateEnd a.summary.TimeRange.End entry.Timestamp } }
      processedIDs := insert entry.ID a.processedIDs }

/-- A finite sequence of heap-level `Process` calls. -/
def ProcessListH (a : LogAnalyzerH) (l : List Models.LogEntry) : LogAnalyzerH :=
  l.foldl ProcessH a

/-- Heap-level `GetSummary` (analyzer.go, lines 73-93): allocate two fresh
maps (`make(map...)`), copy the internal maps' contents into them entry by
entry, copy the scalar fields, and return a reference struct pointing at the
fresh maps.  The analyzer keeps its own references unchanged. -/
def GetSummaryH (a : LogAnalyzerH) : LogAnalyzerH × SummaryRef :=
  let al := a.heap.alloc
  let as' := al.1.alloc
  let h3 := as'.1.write al.2 (as'.1.store a.summary.ByLevelRef)
  let h4 := h3.write as'.2 (h3.store a.summary.ByServiceRef)
  ({ a with heap := h4 },
   { TotalEntries := a.summary.TotalEntries
     ByLevelRef := al.2
     ByServiceRef := as'.2
     TimeRange := { Start := a.summary.TimeRange.Start, End := a.summary.TimeRange.End } })

/-- Well-formedness: the summary's map references are live allocations and
the two maps are distinct objects.  Holds for `NewLogAnalyzerH` and is
preserved by every operation. -/
def WF (a : LogAnalyzerH) : Prop :=
  a.summary.ByLevelRef < a.heap.next ∧ a.summary.ByServiceRef < a.heap.next ∧
    a.summary.ByLevelRef ≠ a.summary.ByServiceRef

instance (a : LogAnalyzerH) : Decidable (WF a) := by
  unfold WF; infer_instance

end AnalyzerHeap

namespace Samples

/-- A directory name for concrete runs. -/
def dir0 : String := "sample-data"

/-- Concrete entry: id 1, INFO from api at instant 10. -/
def entryA : Models.LogEntry :=
  { ID := "1", Timestamp := 10, Level := Models.INFO, Service := "api"
    Message := "User login successful", Source := "" }

/-- Concrete entry: id 2, ERROR from db at instant 20. -/
def entryB : Models.LogEntry :=
  { ID := "2", Timestamp := 20, Level := Models.ERROR, Service := "db"
    Message := "Connection timeout", Source := "" }

/-- Concrete entry: duplicate delivery of `entryA` (same id, same contents). -/
def entryA2 : Models.LogEntry := entryA

/-- Concrete entry with the zero (unset-sentinel) timestamp. -/
def entryZero : Models.LogEntry :=
  { ID := "z", Timestamp := 0, Level := Models.WARNING, Service := "api"
    Message := "zero instant", Source := "" }

/-- Concrete entry at instant 5. -/
def entryFive : Models.LogEntry :=
  { ID := "f", Timestamp := 5, Level := Models.INFO, Service := "db"
    Message := "five", Source := "" }

/-- Concrete entry at the negative instant -5 (before the zero instant). -/
def entryNeg : Models.LogEntry :=
  { ID := "n", Timestamp := -5, Level := Models.INFO, Service := "db"
    Message := "minus five", Source := "" }

/-- Two records with the same id but conflicting contents. -/
def dupX : Models.LogEntry :=
  { ID := "d", Timestamp := 7, Level := Models.INFO, Service := "api"
    Message := "first delivery", Source := "" }

/-- Conflicting duplicate of `dupX`: same id, different level and service. -/
def dupY : Models.LogEntry :=
  { ID := "d", Timestamp := 7, Level := Models.ERROR, Service := "db"
    Message := "second delivery", Source := "" }

/-- A log file that decodes cleanly into `entryA` and `entryB`. -/
def goodFile : Processor.LogFile :=
  { name := "logs1.json", items := [Processor.DecodeItem.ok entryA, Processor.DecodeItem.ok entryB] }

/-- A log file whose second record fails to decode (after `entryFive`
decoded successfully). -/
def badFile : Processor.LogFile :=
  { name := "broken.json"
    items := [Processor.DecodeItem.ok entryFive, Processor.DecodeItem.bad] }

end Samples

namespace Analyzer

/-- A `Process` call on an already-seen ID is a complete no-op. -/
theorem Process_mem {a : LogAnalyzer} {e : Models.LogEntry}
    (h : e.ID ∈ a.processedIDs) : Process a e = a := by
  simp [Process, h]

/-- `Process` always leaves exactly `insert entry.ID` on the dedup set. -/
theorem Process_processedIDs (a : LogAnalyzer) (e : Models.LogEntry) :
    (Process a e).processedIDs = insert e.ID a.processedIDs := by
  by_cases h : e.ID ∈ a.processedIDs
  · rw [Process_mem h]
    exact (Finset.insert_eq_self.mpr h).symm
  · simp [Process, h]

theorem ProcessList_nil (a : LogAnalyzer) : ProcessList a [] = a := rfl

theorem ProcessList_cons (a : LogAnalyzer) (e : Models.LogEntry)
    (l : List Models.LogEntry) : ProcessList a (e :: l) = ProcessList (Process a e) l := rfl

/-- After a sequence of calls the dedup set is the old one plus every ID of
the sequence. -/
theorem ProcessList_processedIDs (l : List Models.LogEntry) :
    ∀ a : LogAnalyzer,
      (ProcessList a l).processedIDs = a.processedIDs ∪ (l.map Models.LogEntry.ID).toFinset := by
  induction l with
  | nil => intro a; simp [ProcessList]
  | cons e t ih =>
    intro a
    rw [ProcessList_cons, ih, Process_processedIDs, List.map_cons, List.toFinset_cons,
      Finset.insert_union, Finset.union_insert]

/-- One `Process` call preserves the conservation invariant. -/
theorem Process_conservation {a : LogAnalyzer} (e : Models.LogEntry)
    (h1 : a.summary.TotalEntries = a.processedIDs.card)
    (h2 : a.summary.TotalEntries = Multiset.card a.summary.ByLevel)
    (h3 : a.summary.TotalEntries = Multiset.card a.summary.ByService) :
    (Process a e).summary.TotalEntries = (Process a e).processedIDs.card ∧
    (Process a e).summary.TotalEntries = Multiset.card (Process a e).summary.ByLevel ∧
    (Process a e).summary.TotalEntries = Multiset.card (Process a e).summary.ByService := by
  by_cases h : e.ID ∈ a.processedIDs
  · rw [Process_mem h]
    exact ⟨h1, h2, h3⟩
  · refine ⟨?_, ?_, ?_⟩ <;>
      simp [Process, h, Finset.card_insert_of_not_mem h] <;>
      omega

/-- The conservation invariant holds after any call sequence from any state
satisfying it. -/
theorem ProcessList_conservation (l : List Models.LogEntry) :
    ∀ a : LogAnalyzer,
      a.summary.TotalEntries = a.processedIDs.card →
      a.summary.TotalEntries = Multiset.card a.summary.ByLevel →
      a.summary.TotalEntries = Multiset.card a.summary.ByService →
      (ProcessList a l).summary.TotalEntries = (ProcessList a l).processedIDs.card ∧
      (ProcessList a l).summary.TotalEntries = Multiset.card (ProcessList a l).summary.ByLevel ∧
      (ProcessList a l).summary.TotalEntries = Multiset.card (ProcessList a l).summary.ByService := by
  induction l with
  | nil => intro a h1 h2 h3; exact ⟨h1, h2, h3⟩
  | cons e t ih =>
    intro a h1 h2 h3
    rw [ProcessList_cons]
    obtain ⟨g1, g2, g3⟩ := Process_conservation e h1 h2 h3
    exact ih (Process a e) g1 g2 g3

/-- C1 (exactly-once observation): on a fresh `LogAnalyzer`, after any finite
sequence `pre` of `Process` calls, the first call carrying a record ID not
yet seen increases `TotalEntries` by exactly 1, and any `Process` call whose
record ID is already in the dedup set leaves the whole analyzer state
(summary, dedup set) unchanged. -/
theorem C1_exactly_once (pre : List Models.LogEntry) (e : Models.LogEntry) :
    ((∀ p ∈ pre, p.ID ≠ e.ID) →
      (Process (ProcessList NewLogAnalyzer pre) e).summary.TotalEntries =
        (ProcessList NewLogAnalyzer pre).summary.TotalEntries + 1) ∧
    (e.ID ∈ (ProcessList NewLogAnalyzer pre).processedIDs →
      Process (ProcessList NewLogAnalyzer pre) e = ProcessList NewLogAnalyzer pre) := by
  constructor
  · intro hfresh
    have hmem : e.ID ∉ (ProcessList NewLogAnalyzer pre).processedIDs := by
      rw [ProcessList_processedIDs]
      simp only [NewLogAnalyzer, Finset.empty_union, List.mem_toFinset, List.mem_map]
      rintro ⟨p, hp, hpe⟩
      exact hfresh p hp hpe
    simp [Process, hmem]
  · exact Process_mem

/-- Witness for C1: after processing `entryA`, processing the fresh id of
`entryB` bumps the total by one, and re-processing `entryA`'s id changes
nothing. -/
theorem C1_exactly_once_witness :
    (Process (ProcessList NewLogAnalyzer [Samples.entryA]) Samples.entryB).summary.TotalEntries =
      (ProcessList NewLogAnalyzer [Samples.entryA]).summary.TotalEntries + 1 ∧
    Process (ProcessList NewLogAnalyzer [Samples.entryA]) Samples.entryA2 =
      ProcessList NewLogAnalyzer [Samples.entryA] :=
  ⟨(C1_exactly_once [Samples.entryA] Samples.entryB).1 (by decide),
   (C1_exactly_once [Samples.entryA] Samples.entryA2).2 (by decide)⟩

/-- C3 (conservation invariant): after any finite sequence of `Process`
calls on a fresh `LogAnalyzer`, `TotalEntries` equals the size of the dedup
set, the dedup set is exactly the set of distinct IDs processed, and
`TotalEntries` also equals the sum of all `ByLevel` counts and the sum of
all `ByService` counts (for a count map embedded as a multiset of keys, the
sum of its counts is the multiset cardinality). -/
theorem C3_conservation (l : List Models.LogEntry) :
    (ProcessList NewLogAnalyzer l).summary.TotalEntries =
      (ProcessList NewLogAnalyzer l).processedIDs.card ∧
    (ProcessList NewLogAnalyzer l).processedIDs = (l.map Models.LogEntry.ID).toFinset ∧
    (ProcessList NewLogAnalyzer l).summary.TotalEntries =
      Multiset.card (ProcessList NewLogAnalyzer l).summary.ByLevel ∧
    (ProcessList NewLogAnalyzer l).summary.TotalEntries =
      Multiset.card (ProcessList NewLogAnalyzer l).summary.ByService := by
  obtain ⟨g1, g2, g3⟩ := ProcessList_conservation l NewLogAnalyzer rfl rfl rfl
  refine ⟨g1, ?_, g2, g3⟩
  rw [ProcessList_processedIDs]
  exact Finset.empty_union _

/-- The start-bound updates of two records with nonzero timestamps commute
(the zero sentinel never reappears once both updates carry nonzero
instants). -/
theorem updateStart_comm {tx ty : Int} (hx : tx ≠ 0) (hy : ty ≠ 0) (s : Int) :
    updateStart (updateStart s tx) ty = updateStart (updateStart s ty) tx := by
  simp only [updateStart]
  split_ifs <;> omega

/-- The end-bound updates of two records with nonzero timestamps commute. -/
theorem updateEnd_comm {tx ty : Int} (hx : tx ≠ 0) (hy : ty ≠ 0) (s : Int) :
    updateEnd (updateEnd s tx) ty = updateEnd (updateEnd s ty) tx := by
  simp only [updateEnd]
  split_ifs <;> omega

/-- Two `Process` calls commute, provided both records carry nonzero
timestamps and equal IDs imply equal records. -/
theorem Process_comm {x y : Models.LogEntry} (hx : x.Timestamp ≠ 0)
    (hy : y.Timestamp ≠ 0) (hxy : x.ID = y.ID → x = y) (a : LogAnalyzer) :
    Process (Process a x) y = Process (Process a y) x := by
  by_cases hid : x.ID = y.ID
  · cases hxy hid
    rfl
  · by_cases hxm : x.ID ∈ a.processedIDs
    · by_cases hym : y.ID ∈ a.processedIDs
      · rw [Process_mem hxm, Process_mem hym, Process_mem hxm]
      · rw [Process_mem hxm]
        have hx' : x.ID ∈ (Process a y).processedIDs := by
          rw [Process_processedIDs]
          exact Finset.mem_insert_of_mem hxm
        rw [Process_mem hx']
    · by_cases hym : y.ID ∈ a.processedIDs
      · rw [Process_mem hym]
        have hy' : y.ID ∈ (Process a x).processedIDs := by
          rw [Process_processedIDs]
          exact Finset.mem_insert_of_mem hym
        rw [Process_mem hy']
      · have hy' : y.ID ∉ insert x.ID a.processedIDs := by
          rw [Finset.mem_insert]
          push_neg
          exact ⟨fun hc => hid hc.symm, hym⟩
        have hx' : x.ID ∉ insert y.ID a.processedIDs := by
          rw [Finset.mem_insert]
          push_neg
          exact ⟨hid, hxm⟩
        simp only [Process, if_neg hxm, if_neg hym, if_neg hx', if_neg hy',
          LogAnalyzer.mk.injEq, Models.LogSummary.mk.injEq, Models.TimeRange.mk.injEq]
        refine ⟨⟨trivial, Multiset.cons_swap _ _ _, Multiset.cons_swap _ _ _,
          updateStart_comm hx hy _, updateEnd_comm hx hy _⟩, Finset.Insert.comm _ _ _⟩

/-- Folding `Process` over a list is invariant under permutation, provided
all timestamps are nonzero and equal IDs carry equal records. -/
theorem ProcessList_perm {l l' : List Models.LogEntry} (hp : l.Perm l') :
    (∀ e ∈ l, e.Timestamp ≠ 0) →
    (∀ x ∈ l, ∀ y ∈ l, x.ID = y.ID → x = y) →
    ∀ a : LogAnalyzer, ProcessList a l = ProcessList a l' := by
  induction hp with
  | nil => intro _ _ a; rfl
  | @cons x l1 l2 h ih =>
    intro hts hid a
    rw [ProcessList_cons, ProcessList_cons]
    exact ih (fun e he => hts e (List.mem_cons_of_mem _ he))
      (fun p hp' q hq' hpq =>
        hid p (List.mem_cons_of_mem _ hp') q (List.mem_cons_of_mem _ hq') hpq)
      (Process a x)
  | @swap x y t =>
    intro hts hid a
    rw [ProcessList_cons, ProcessList_cons, ProcessList_cons, ProcessList_cons]
    have hx : x.Timestamp ≠ 0 := hts x (by simp)
    have hy : y.Timestamp ≠ 0 := hts y (by simp)
    have hyx : y.ID = x.ID → y = x := hid y (by simp) x (by simp)
    rw [Process_comm hy hx hyx a]
  | @trans l1 l2 l3 h1 h2 ih1 ih2 =>
    intro hts hid a
    rw [ih1 hts hid a]
    exact ih2 (fun e he => hts e (h1.mem_iff.mpr he))
      (fun p hp' q hq' hpq =>
        hid p (h1.mem_iff.mpr hp') q (h1.mem_iff.mpr hq') hpq) a

/-- C4 counterexample: the claim fails as stated.  First input: two distinct
records at instants 0 and 5 — the zero-timestamp sentinel makes the final
`TimeRange` depend on arrival order.  Second input: two conflicting records
delivered under the same id — deduplication keeps whichever arrives first,
so the final `ByLevel` map depends on arrival order. -/
theorem C4_counterexample :
    (List.Perm [Samples.entryFive, Samples.entryZero] [Samples.entryZero, Samples.entryFive] ∧
      (ProcessList NewLogAnalyzer [Samples.entryZero, Samples.entryFive]).summary.TimeRange.Start ≠
        (ProcessList NewLogAnalyzer [Samples.entryFive, Samples.entryZero]).summary.TimeRange.Start) ∧
    (List.Perm [Samples.dupY, Samples.dupX] [Samples.dupX, Samples.dupY] ∧
      Multiset.count Models.INFO
          (ProcessList NewLogAnalyzer [Samples.dupX, Samples.dupY]).summary.ByLevel ≠
        Multiset.count Models.INFO
          (ProcessList NewLogAnalyzer [Samples.dupY, Samples.dupX]).summary.ByLevel) := by
  decide

/-- C4 (amended): for every finite list of records in which every timestamp
is nonzero (the code treats the zero instant as the unset sentinel) and any
two records sharing an ID are equal (duplicate delivery of the same record),
every permutation of the list folds to the identical final analyzer state —
the same `TotalEntries`, the same `ByLevel` and `ByService` maps, the same
`TimeRange`, and the same dedup set. -/
theorem C4_order_independence (l l' : List Models.LogEntry) (hp : l.Perm l')
    (hts : ∀ e ∈ l, e.Timestamp ≠ 0)
    (hid : ∀ x ∈ l, ∀ y ∈ l, x.ID = y.ID → x = y) :
    ProcessList NewLogAnalyzer l = ProcessList NewLogAnalyzer l' :=
  ProcessList_perm hp hts hid NewLogAnalyzer

/-- Witness for C4 (amended) at the two-record input `entryA`, `entryB` and
its transposition. -/
theorem C4_order_independence_witness :
    ProcessList NewLogAnalyzer [Samples.entryA, Samples.entryB] =
      ProcessList NewLogAnalyzer [Samples.entryB, Samples.entryA] :=
  C4_order_independence _ _ (List.Perm.swap Samples.entryB Samples.entryA [])
    (by decide) (by decide)

/-- A record kept by deduplication came from the processed list. -/
theorem mem_firstOccurrences {l : List Models.LogEntry} :
    ∀ {seen : Finset String} {e : Models.LogEntry},
      e ∈ firstOccurrences seen l → e ∈ l := by
  induction l with
  | nil => intro seen e h; cases h
  | cons x t ih =>
    intro seen e h
    by_cases hx : x.ID ∈ seen
    · rw [firstOccurrences, if_pos hx] at h
      exact List.mem_cons_of_mem _ (ih h)
    · rw [firstOccurrences, if_neg hx] at h
      rcases List.mem_cons.mp h with h | h
      · rw [h]
        exact List.mem_cons_self _ _
      · exact List.mem_cons_of_mem _ (ih h)

/-- A nonempty input leaves at least its first record after deduplication
from an empty dedup set. -/
theorem firstOccurrences_ne_nil (x : Models.LogEntry) (t : List Models.LogEntry) :
    firstOccurrences ∅ (x :: t) ≠ [] := by
  rw [firstOccurrences, if_neg (Finset.not_mem_empty x.ID)]
  exact List.cons_ne_nil _ _

/-- The final time range is the fold of the two bound updates over the
timestamps of the records kept by deduplication. -/
theorem ProcessList_timeRange (l : List Models.LogEntry) :
    ∀ a : LogAnalyzer,
      (ProcessList a l).summary.TimeRange.Start =
        ((firstOccurrences a.processedIDs l).map Models.LogEntry.Timestamp).foldl updateStart
          a.summary.TimeRange.Start ∧
      (ProcessList a l).summary.TimeRange.End =
        ((firstOccurrences a.processedIDs l).map Models.LogEntry.Timestamp).foldl updateEnd
          a.summary.TimeRange.End := by
  induction l with
  | nil => intro a; exact ⟨rfl, rfl⟩
  | cons e t ih =>
    intro a
    by_cases h : e.ID ∈ a.processedIDs
    · rw [ProcessList_cons, Process_mem h, firstOccurrences, if_pos h]
      exact ih a
    · rw [ProcessList_cons, firstOccurrences, if_neg h]
      have := ih (Process a e)
      rw [Process_processedIDs] at this
      simpa [Process, h] using this

/-- Folding the start update from a nonzero bound: the result is the old
bound or one of the timestamps, shrinks monotonically, bounds every
timestamp from below, and stays nonzero while all timestamps are nonzero. -/
theorem foldl_updateStart_nonzero (ts : List Int) :
    ∀ s : Int, s ≠ 0 → (∀ t ∈ ts, t ≠ 0) →
      (ts.foldl updateStart s = s ∨ ts.foldl updateStart s ∈ ts) ∧
      ts.foldl updateStart s ≤ s ∧ (∀ t ∈ ts, ts.foldl updateStart s ≤ t) ∧
      ts.foldl updateStart s ≠ 0 := by
  induction ts with
  | nil =>
    intro s hs _
    exact ⟨Or.inl rfl, le_refl s, fun t ht => absurd ht (List.not_mem_nil t), hs⟩
  | cons t rest ih =>
    intro s hs hts
    have ht : t ≠ 0 := hts t (List.mem_cons_self t rest)
    have hstep : updateStart s t = t ∨ updateStart s t = s := by
      unfold updateStart
      split_ifs <;> simp
    have hle1 : updateStart s t ≤ s := by
      unfold updateStart
      split_ifs <;> omega
    have hle2 : updateStart s t ≤ t := by
      unfold updateStart
      split_ifs <;> omega
    have hne : updateStart s t ≠ 0 := by
      rcases hstep with h | h <;> rw [h] <;> assumption
    obtain ⟨g1, g2, g3, g4⟩ :=
      ih (updateStart s t) hne (fun u hu => hts u (List.mem_cons_of_mem _ hu))
    rw [List.foldl_cons]
    refine ⟨?_, le_trans g2 hle1, ?_, g4⟩
    · rcases g1 with h | h
      · rcases hstep with h2 | h2
        · exact Or.inr (by rw [h, h2]; exact List.mem_cons_self _ _)
        · exact Or.inl (by rw [h, h2])
      · exact Or.inr (List.mem_cons_of_mem _ h)
    · intro u hu
      rcases List.mem_cons.mp hu with h | h
      · rw [h]
        exact le_trans g2 hle2
      · exact g3 u h

/-- Folding the start update from the zero sentinel over a nonempty list of
nonzero timestamps yields the minimum: a member that bounds all others. -/
theorem foldl_updateStart_zero (ts : List Int) (h0 : ts ≠ [])
    (hts : ∀ t ∈ ts, t ≠ 0) :
    ts.foldl updateStart 0 ∈ ts ∧ ∀ t ∈ ts, ts.foldl updateStart 0 ≤ t := by
  match ts, h0 with
  | t :: rest, _ =>
    have ht : t ≠ 0 := hts t (List.mem_cons_self t rest)
    have hfirst : updateStart 0 t = t := by
      unfold updateStart
      simp
    rw [List.foldl_cons, hfirst]
    obtain ⟨g1, g2, g3, _⟩ :=
      foldl_updateStart_nonzero rest t ht (fun u hu => hts u (List.mem_cons_of_mem _ hu))
    refine ⟨?_, ?_⟩
    · rcases g1 with h | h
      · rw [h]
        exact List.mem_cons_self _ _
      · exact List.mem_cons_of_mem _ h
    · intro u hu
      rcases List.mem_cons.mp hu with h | h
      · rw [h]
        exact g2
      · exact g3 u h

/-- Folding the end update from a nonzero bound: dual of
`foldl_updateStart_nonzero`. -/
theorem foldl_updateEnd_nonzero (ts : List Int) :
    ∀ s : Int, s ≠ 0 → (∀ t ∈ ts, t ≠ 0) →
      (ts.foldl updateEnd s = s ∨ ts.foldl updateEnd s ∈ ts) ∧
      s ≤ ts.foldl updateEnd s ∧ (∀ t ∈ ts, t ≤ ts.foldl updateEnd s) ∧
      ts.foldl updateEnd s ≠ 0 := by
  induction ts with
  | nil =>
    intro s hs _
    exact ⟨Or.inl rfl, le_refl s, fun t ht => absurd ht (List.not_mem_nil t), hs⟩
  | cons t rest ih =>
    intro s hs hts
    have ht : t ≠ 0 := hts t (List.mem_cons_self t rest)
    have hstep : updateEnd s t = t ∨ updateEnd s t = s := by
      unfold updateEnd
      split_ifs <;> simp
    have hle1 : s ≤ updateEnd s t := by
      unfold updateEnd
      split_ifs <;> omega
    have hle2 : t ≤ updateEnd s t := by
      unfold updateEnd
      split_ifs <;> omega
    have hne : updateEnd s t ≠ 0 := by
      rcases hstep with h | h <;> rw [h] <;> assumption
    obtain ⟨g1, g2, g3, g4⟩ :=
      ih (updateEnd s t) hne (fun u hu => hts u (List.mem_cons_of_mem _ hu))
    rw [List.foldl_cons]
    refine ⟨?_, le_trans hle1 g2, ?_, g4⟩
    · rcases g1 with h | h
      · rcases hstep with h2 | h2
        · exact Or.inr (by rw [h, h2]; exact List.mem_cons_self _ _)
        · exact Or.inl (by rw [h, h2])
      · exact Or.inr (List.mem_cons_of_mem _ h)
    · intro u hu
      rcases List.mem_cons.mp hu with h | h
      · rw [h]
        exact le_trans hle2 g2
      · exact g3 u h

/-- Folding the end update from the zero sentinel over a nonempty list of
nonzero timestamps yields the maximum. -/
theorem foldl_updateEnd_zero (ts : List Int) (h0 : ts ≠ [])
    (hts : ∀ t ∈ ts, t ≠ 0) :
    ts.foldl updateEnd 0 ∈ ts ∧ ∀ t ∈ ts, t ≤ ts.foldl updateEnd 0 := by
  match ts, h0 with
  | t :: rest, _ =>
    have ht : t ≠ 0 := hts t (List.mem_cons_self t rest)
    have hfirst : updateEnd 0 t = t := by
      unfold updateEnd
      simp
    rw [List.foldl_cons, hfirst]
    obtain ⟨g1, g2, g3, _⟩ :=
      foldl_updateEnd_nonzero rest t ht (fun u hu => hts u (List.mem_cons_of_mem _ hu))
    refine ⟨?_, ?_⟩
    · rcases g1 with h | h
      · rw [h]
        exact List.mem_cons_self _ _
      · exact List.mem_cons_of_mem _ h
    · intro u hu
      rcases List.mem_cons.mp hu with h | h
      · rw [h]
        exact g2
      · exact g3 u h

/-- C5 counterexample: the claim fails as stated, because the code treats the
zero instant as the unset sentinel.  Processing a record at the zero instant
and then one at instant 5 ends with `Start = 5`, which is not the minimum
timestamp (0) of the distinct records observed; and after observing the
zero-instant record, `End` is 0 and a later record at instant -5 moves `End`
earlier, from 0 to -5. -/
theorem C5_counterexample :
    Samples.entryZero.ID ≠ Samples.entryFive.ID ∧
    Samples.entryZero.Timestamp = 0 ∧
    (ProcessList NewLogAnalyzer [Samples.entryZero, Samples.entryFive]).summary.TimeRange.Start = 5 ∧
    ¬((ProcessList NewLogAnalyzer
        [Samples.entryZero, Samples.entryFive]).summary.TimeRange.Start ≤
      Samples.entryZero.Timestamp) ∧
    (ProcessList NewLogAnalyzer [Samples.entryZero]).summary.TimeRange.End = 0 ∧
    (ProcessList NewLogAnalyzer [Samples.entryZero, Samples.entryNeg]).summary.TimeRange.End = -5 := by
  decide

/-- C5 (amended): provided no processed record carries the zero (sentinel)
timestamp: every `Process` call only widens a set time range — a nonzero
`TimeRange.Start` never moves later and a nonzero `TimeRange.End` never
moves earlier — and after any nonempty sequence of `Process` calls on a
fresh analyzer, `Start` is the minimum and `End` the maximum timestamp over
the distinct records observed (the first record of each distinct ID). -/
theorem C5_time_range :
    (∀ (a : LogAnalyzer) (e : Models.LogEntry),
      (a.summary.TimeRange.Start ≠ 0 →
        (Process a e).summary.TimeRange.Start ≤ a.summary.TimeRange.Start) ∧
      (a.summary.TimeRange.End ≠ 0 →
        a.summary.TimeRange.End ≤ (Process a e).summary.TimeRange.End)) ∧
    (∀ l : List Models.LogEntry, (∀ e ∈ l, e.Timestamp ≠ 0) → l ≠ [] →
      ((ProcessList NewLogAnalyzer l).summary.TimeRange.Start ∈
          (firstOccurrences ∅ l).map Models.LogEntry.Timestamp ∧
        ∀ e ∈ firstOccurrences ∅ l,
          (ProcessList NewLogAnalyzer l).summary.TimeRange.Start ≤ e.Timestamp) ∧
      ((ProcessList NewLogAnalyzer l).summary.TimeRange.End ∈
          (firstOccurrences ∅ l).map Models.LogEntry.Timestamp ∧
        ∀ e ∈ firstOccurrences ∅ l,
          e.Timestamp ≤ (ProcessList NewLogAnalyzer l).summary.TimeRange.End)) := by
  constructor
  · intro a e
    constructor
    · intro hs
      by_cases h : e.ID ∈ a.processedIDs
      · rw [Process_mem h]
      · simp only [Process, if_neg h]
        show updateStart a.summary.TimeRange.Start e.Timestamp ≤ a.summary.TimeRange.Start
        unfold updateStart
        split_ifs <;> omega
    · intro hs
      by_cases h : e.ID ∈ a.processedIDs
      · rw [Process_mem h]
      · simp only [Process, if_neg h]
        show a.summary.TimeRange.End ≤ updateEnd a.summary.TimeRange.End e.Timestamp
        unfold updateEnd
        split_ifs <;> omega
  · intro l hts h0
    obtain ⟨hS, hE⟩ := ProcessList_timeRange l NewLogAnalyzer
    have hseen : (NewLogAnalyzer : LogAnalyzer).processedIDs = ∅ := rfl
    rw [hseen] at hS hE
    have hne : firstOccurrences ∅ l ≠ [] := by
      match l, h0 with
      | x :: t, _ => exact firstOccurrences_ne_nil x t
    have hmapne : (firstOccurrences ∅ l).map Models.LogEntry.Timestamp ≠ [] := by
      intro hc
      exact hne (List.map_eq_nil_iff.mp hc)
    have htsmap : ∀ t ∈ (firstOccurrences ∅ l).map Models.LogEntry.Timestamp, t ≠ 0 := by
      intro t ht
      obtain ⟨e, he, rfl⟩ := List.mem_map.mp ht
      exact hts e (mem_firstOccurrences he)
    have hstart0 : (NewLogAnalyzer : LogAnalyzer).summary.TimeRange.Start = 0 := rfl
    have hend0 : (NewLogAnalyzer : LogAnalyzer).summary.TimeRange.End = 0 := rfl
    rw [hstart0] at hS
    rw [hend0] at hE
    obtain ⟨gS1, gS2⟩ := foldl_updateStart_zero _ hmapne htsmap
    obtain ⟨gE1, gE2⟩ := foldl_updateEnd_zero _ hmapne htsmap
    refine ⟨⟨?_, ?_⟩, ?_, ?_⟩
    · rw [hS]; exact gS1
    · intro e he
      rw [hS]
      exact gS2 e.Timestamp (List.mem_map.mpr ⟨e, he, rfl⟩)
    · rw [hE]; exact gE1
    · intro e he
      rw [hE]
      exact gE2 e.Timestamp (List.mem_map.mpr ⟨e, he, rfl⟩)

/-- Witness for C5 (amended): after `entryA` the start bound is nonzero and
a further call does not move it later; on the two-record run `entryA`,
`entryB` the final start bound is one of the observed timestamps. -/
theorem C5_time_range_witness :
    (Process (ProcessList NewLogAnalyzer [Samples.entryA]) Samples.entryB).summary.TimeRange.Start ≤
      (ProcessList NewLogAnalyzer [Samples.entryA]).summary.TimeRange.Start ∧
    (ProcessList NewLogAnalyzer [Samples.entryA, Samples.entryB]).summary.TimeRange.Start ∈
      (firstOccurrences ∅ [Samples.entryA, Samples.entryB]).map Models.LogEntry.Timestamp :=
  ⟨(C5_time_range.1 (ProcessList NewLogAnalyzer [Samples.entryA]) Samples.entryB).1 (by decide),
   ((C5_time_range.2 [Samples.entryA, Samples.entryB] (by decide) (by decide)).1).1⟩

end Analyzer

namespace Processor

/-- A file with a failed decode contributes no entries and one reported
error; a clean file contributes its entries and no error. -/
theorem startStep_processingCh (st : LogProcessor) (f : LogFile) :
    (startStep st f).processingCh = st.processingCh ++ fileEntries f := by
  cases hd : decodeEntries f.name f.items with
  | none => simp [startStep, processFile, fileEntries, hd]
  | some es => simp [startStep, processFile, fileEntries, hd]

theorem startStep_processingChClosed (st : LogProcessor) (f : LogFile) :
    (startStep st f).processingChClosed = st.processingChClosed := by
  cases hd : decodeEntries f.name f.items with
  | none => simp [startStep, processFile, hd]
  | some es => simp [startStep, processFile, hd]

theorem startStep_analyzer (st : LogProcessor) (f : LogFile) :
    (startStep st f).analyzer = st.analyzer := by
  cases hd : decodeEntries f.name f.items with
  | none => simp [startStep, processFile, hd]
  | some es => simp [startStep, processFile, hd]

theorem startStep_reportedErrors (st : LogProcessor) (f : LogFile) :
    (startStep st f).reportedErrors =
      st.reportedErrors + (if fileFails f then 1 else 0) := by
  cases hd : decodeEntries f.name f.items with
  | none => simp [startStep, processFile, fileFails, hd]
  | some es => simp [startStep, processFile, fileFails, hd]

/-- The producer loop never closes the channel. -/
theorem foldl_startStep_processingChClosed (files : List LogFile) :
    ∀ st : LogProcessor,
      (files.foldl startStep st).processingChClosed = st.processingChClosed := by
  induction files with
  | nil => intro st; rfl
  | cons f t ih =>
    intro st
    rw [List.foldl_cons, ih, startStep_processingChClosed]

/-- The producer loop never touches the analyzer (only workers do). -/
theorem foldl_startStep_analyzer (files : List LogFile) :
    ∀ st : LogProcessor, (files.foldl startStep st).analyzer = st.analyzer := by
  induction files with
  | nil => intro st; rfl
  | cons f t ih =>
    intro st
    rw [List.foldl_cons, ih, startStep_analyzer]

/-- The producer loop reports exactly one error per failing file. -/
theorem foldl_startStep_reportedErrors (files : List LogFile) :
    ∀ st : LogProcessor,
      (files.foldl startStep st).reportedErrors =
        st.reportedErrors + files.countP fileFails := by
  induction files with
  | nil => intro st; simp
  | cons f t ih =>
    intro st
    rw [List.foldl_cons, ih, startStep_reportedErrors, List.countP_cons]
    omega

/-- The producer loop only appends to the channel. -/
theorem foldl_startStep_processingCh_append (files : List LogFile) :
    ∀ st : LogProcessor, ∃ rest,
      (files.foldl startStep st).processingCh = st.processingCh ++ rest := by
  induction files with
  | nil => intro st; exact ⟨[], (List.append_nil _).symm⟩
  | cons f t ih =>
    intro st
    obtain ⟨rest, hrest⟩ := ih (startStep st f)
    refine ⟨fileEntries f ++ rest, ?_⟩
    rw [List.foldl_cons, hrest, startStep_processingCh, List.append_assoc]

/-- Every entry of every cleanly decoded file ends up in the channel. -/
theorem mem_processingCh_of_mem_fileEntries (files : List LogFile) :
    ∀ (st : LogProcessor) (g : LogFile), g ∈ files →
      ∀ e ∈ fileEntries g, e ∈ (files.foldl startStep st).processingCh := by
  induction files with
  | nil => intro st g hg; cases hg
  | cons f t ih =>
    intro st g hg e he
    rw [List.foldl_cons]
    rcases List.mem_cons.mp hg with h | h
    · obtain ⟨rest, hrest⟩ := foldl_startStep_processingCh_append t (startStep st f)
      rw [hrest, startStep_processingCh]
      subst h
      exact List.mem_append_left _ (List.mem_append_right _ he)
    · exact ih (startStep st f) g h e he

/-- On a nonempty file list `Start` is the producer fold with no error. -/
theorem Start_of_ne_nil (p : LogProcessor) (files : List LogFile)
    (h : files ≠ []) :
    Start p (some files) =
      (files.foldl startStep { p with workersStarted := 5 }, none) := by
  simp [Start, h]

/-- A decode sequence containing a failing item decodes to an error. -/
theorem decodeEntries_eq_none (items : List DecodeItem)
    (hbad : DecodeItem.bad ∈ items) : ∀ n : String, decodeEntries n items = none := by
  induction items with
  | nil => cases hbad
  | cons i rest ih =>
    intro n
    cases i with
    | bad => rfl
    | ok e =>
      have : DecodeItem.bad ∈ rest := by
        rcases List.mem_cons.mp hbad with h | h
        · cases h
        · exact h
      rw [decodeEntries, ih this n]
      rfl

/-- C7 (code bug in `Stop`): the first `Stop` call closes the `done` channel;
a second `Stop` call closes it again, which is a Go runtime panic (`none` in
the embedding) — not the side-effect-free no-op the claim requires. -/
theorem C7_stop_twice_panics :
    (Stop (NewLogProcessor Samples.dir0)).isSome = true ∧
    (Stop (NewLogProcessor Samples.dir0)).bind Stop = none := by
  decide

/-- C2 (code bug in `Start`): `Start` never closes `processingCh` (on every
input the closed flag it returns is the one it was given), so the workers'
`range` loops can never exit; concretely, on a one-file input with one valid
record, `Start` returns success with the channel still open, the workers
unable to exit, and the record still sitting unprocessed in the queue. -/
theorem C2_start_never_closes_queue :
    (∀ (p : LogProcessor) (g : Option (List LogFile)),
      (Start p g).1.processingChClosed = p.processingChClosed) ∧
    (Start (NewLogProcessor Samples.dir0) (some [Samples.goodFile])).2 = none ∧
    (Start (NewLogProcessor Samples.dir0) (some [Samples.goodFile])).1.processingChClosed = false ∧
    workersCanExit (Start (NewLogProcessor Samples.dir0) (some [Samples.goodFile])).1 = false ∧
    (Start (NewLogProcessor Samples.dir0) (some [Samples.goodFile])).1.processingCh ≠ [] := by
  refine ⟨?_, by decide, by decide, by decide, by decide⟩
  intro p g
  cases g with
  | none => rfl
  | some files =>
    by_cases h : files = []
    · subst h; rfl
    · rw [Start_of_ne_nil p files h]
      exact foldl_startStep_processingChClosed files _

/-- C8 (fatal start errors): `Start` returns an error exactly when source
discovery fails (`none`) or discovers zero matching files, and in that case
it returns before launching any worker or producer task; with at least one
matching file it never returns a fatal start error. -/
theorem C8_fatal_start_errors (p : LogProcessor) (g : Option (List LogFile))
    (hw : p.workersStarted = 0) (hpr : p.producersStarted = 0) :
    ((Start p g).2 ≠ none ↔ g = none ∨ g = some []) ∧
    ((Start p g).2 ≠ none →
      (Start p g).1.workersStarted = 0 ∧ (Start p g).1.producersStarted = 0) := by
  cases g with
  | none => simp [Start, hw, hpr]
  | some files =>
    by_cases h : files = []
    · subst h
      simp [Start, hw, hpr]
    · simp [Start, h, hw, hpr]

/-- Witness for C8 at a failing glob. -/
theorem C8_fatal_start_errors_witness :
    ((Start (NewLogProcessor Samples.dir0) none).2 ≠ none ↔
      (none : Option (List LogFile)) = none ∨
        (none : Option (List LogFile)) = some []) ∧
    ((Start (NewLogProcessor Samples.dir0) none).2 ≠ none →
      (Start (NewLogProcessor Samples.dir0) none).1.workersStarted = 0 ∧
      (Start (NewLogProcessor Samples.dir0) none).1.producersStarted = 0) :=
  C8_fatal_start_errors (NewLogProcessor Samples.dir0) none rfl rfl

/-- C9 (partial-failure semantics): on a run over several files where one
file's decode fails, `Start` still returns without error, the failure is
reported (counted by `reportedErrors`), and every record of every cleanly
decoded file is still observed in the final summary once the workers drain
the queue. -/
theorem C9_partial_failure (dir : String) (files : List LogFile) (f : LogFile)
    (hf : f ∈ files) (hfail : decodeEntries f.name f.items = none) :
    (Start (NewLogProcessor dir) (some files)).2 = none ∧
    1 ≤ (Start (NewLogProcessor dir) (some files)).1.reportedErrors ∧
    ∀ g ∈ files, ∀ es, decodeEntries g.name g.items = some es →
      ∀ e ∈ es, e.ID ∈
        (drainQueue (Start (NewLogProcessor dir) (some files)).1).analyzer.processedIDs := by
  have hne : files ≠ [] := List.ne_nil_of_mem hf
  rw [Start_of_ne_nil _ _ hne]
  refine ⟨rfl, ?_, ?_⟩
  · rw [foldl_startStep_reportedErrors]
    have hpos : 0 < files.countP fileFails := by
      rw [List.countP_pos_iff]
      refine ⟨f, hf, ?_⟩
      simp [fileFails, hfail]
    simp only [NewLogProcessor]
    omega
  · intro g hg es hes e he
    have hent : e ∈ fileEntries g := by
      rw [fileEntries, hes]
      exact he
    have hch := mem_processingCh_of_mem_fileEntries files
      { NewLogProcessor dir with workersStarted := 5 } g hg e hent
    simp only [drainQueue, Analyzer.ProcessList_processedIDs, Finset.mem_union]
    right
    rw [List.mem_toFinset]
    exact List.mem_map.mpr ⟨e, hch, rfl⟩

/-- Witness for C9: one clean file and one file with a mid-stream decode
failure; the clean file's first record is still observed. -/
theorem C9_partial_failure_witness :
    (Start (NewLogProcessor Samples.dir0) (some [Samples.goodFile, Samples.badFile])).2 = none ∧
    1 ≤ (Start (NewLogProcessor Samples.dir0)
          (some [Samples.goodFile, Samples.badFile])).1.reportedErrors ∧
    (setSource Samples.goodFile.name Samples.entryA).ID ∈
      (drainQueue (Start (NewLogProcessor Samples.dir0)
          (some [Samples.goodFile, Samples.badFile])).1).analyzer.processedIDs := by
  obtain ⟨h1, h2, h3⟩ := C9_partial_failure Samples.dir0 [Samples.goodFile, Samples.badFile]
    Samples.badFile (by decide) (by decide)
  refine ⟨h1, h2, ?_⟩
  exact h3 Samples.goodFile (by decide)
    [setSource Samples.goodFile.name Samples.entryA, setSource Samples.goodFile.name Samples.entryB]
    (by decide) (setSource Samples.goodFile.name Samples.entryA) (by decide)

/-- C10 (all-or-nothing per file): if any record of a file fails to decode,
`processFile` returns the error with the processor state unchanged — no
record of that file, including those decoded before the failure, is
enqueued, so none of them can reach the summary. -/
theorem C10_all_or_nothing (p : LogProcessor) (f : LogFile)
    (hbad : DecodeItem.bad ∈ f.items) :
    processFile p f = (p, some ()) := by
  rw [processFile, decodeEntries_eq_none f.items hbad f.name]

/-- Witness for C10: the file whose second record fails to decode leaves the
processor untouched, dropping its first (successfully decoded) record too. -/
theorem C10_all_or_nothing_witness :
    processFile (NewLogProcessor Samples.dir0) Samples.badFile =
      (NewLogProcessor Samples.dir0, some ()) :=
  C10_all_or_nothing (NewLogProcessor Samples.dir0) Samples.badFile (by decide)

end Processor

namespace AnalyzerHeap

/-- `Process` never reassigns the analyzer's own map references. -/
theorem ProcessH_refs (a : LogAnalyzerH) (e : Models.LogEntry) :
    (ProcessH a e).summary.ByLevelRef = a.summary.ByLevelRef ∧
    (ProcessH a e).summary.ByServiceRef = a.summary.ByServiceRef := by
  by_cases h : e.ID ∈ a.processedIDs <;> simp [ProcessH, h]

/-- `Process` writes only through the analyzer's own map references. -/
theorem ProcessH_store_other (a : LogAnalyzerH) (e : Models.LogEntry) (r : Nat)
    (h1 : r ≠ a.summary.ByLevelRef) (h2 : r ≠ a.summary.ByServiceRef) :
    (ProcessH a e).heap.store r = a.heap.store r := by
  by_cases h : e.ID ∈ a.processedIDs
  · rw [ProcessH, if_pos h]
  · rw [ProcessH, if_neg h]
    show Function.update (Function.update a.heap.store _ _) _ _ r = a.heap.store r
    rw [Function.update_noteq h2, Function.update_noteq h1]

/-- A sequence of `Process` calls leaves every map object other than the
analyzer's two own maps untouched. -/
theorem ProcessListH_store_other (l : List Models.LogEntry) :
    ∀ (a : LogAnalyzerH) (r : Nat),
      r ≠ a.summary.ByLevelRef → r ≠ a.summary.ByServiceRef →
      (ProcessListH a l).heap.store r = a.heap.store r := by
  induction l with
  | nil => intro a r _ _; rfl
  | cons e t ih =>
    intro a r h1 h2
    obtain ⟨g1, g2⟩ := ProcessH_refs a e
    have hstep := ProcessH_store_other a e r h1 h2
    have hrec := ih (ProcessH a e) r (by rw [g1]; exact h1) (by rw [g2]; exact h2)
    show (ProcessListH (ProcessH a e) t).heap.store r = a.heap.store r
    rw [hrec, hstep]

/-- `GetSummary` leaves the analyzer's own summary untouched. -/
theorem GetSummaryH_fst_summary (a : LogAnalyzerH) :
    (GetSummaryH a).1.summary = a.summary := rfl

/-- The snapshot's map references are the two fresh allocations. -/
theorem GetSummaryH_snap_refs (a : LogAnalyzerH) :
    (GetSummaryH a).2.ByLevelRef = a.heap.next ∧
    (GetSummaryH a).2.ByServiceRef = a.heap.next + 1 :=
  ⟨rfl, rfl⟩

/-- What `GetSummary`'s allocations and copy loops leave in the heap: the
analyzer's own maps are unchanged, and each fresh map holds a copy of the
corresponding internal map's contents. -/
theorem GetSummaryH_store (a : LogAnalyzerH) (hwf : WF a) :
    (GetSummaryH a).1.heap.store a.summary.ByLevelRef =
      a.heap.store a.summary.ByLevelRef ∧
    (GetSummaryH a).1.heap.store a.summary.ByServiceRef =
      a.heap.store a.summary.ByServiceRef ∧
    (GetSummaryH a).1.heap.store (GetSummaryH a).2.ByLevelRef =
      a.heap.store a.summary.ByLevelRef ∧
    (GetSummaryH a).1.heap.store (GetSummaryH a).2.ByServiceRef =
      a.heap.store a.summary.ByServiceRef := by
  obtain ⟨w1, w2, w3⟩ := hwf
  refine ⟨?_, ?_, ?_, ?_⟩ <;>
    · simp only [GetSummaryH, Heap.write, Heap.alloc, Function.update_apply]
      split_ifs <;> first | rfl | omega

/-- C6 (snapshot independence): for any well-formed heap-level analyzer, the
summary returned by `GetSummary` is a deep, independent copy — at snapshot
time it reads equal to the internal summary; any sequence of later `Process`
calls leaves the snapshot's observable value unchanged; and overwriting the
snapshot's map objects leaves the internal summary's observable value
unchanged. -/
theorem C6_snapshot_independence (a : LogAnalyzerH) (hwf : WF a) :
    readSummary (GetSummaryH a).1.heap (GetSummaryH a).2 =
      readSummary (GetSummaryH a).1.heap (GetSummaryH a).1.summary ∧
    (∀ es : List Models.LogEntry,
      readSummary (ProcessListH (GetSummaryH a).1 es).heap (GetSummaryH a).2 =
        readSummary (GetSummaryH a).1.heap (GetSummaryH a).2) ∧
    (∀ (r : Nat) (m : Multiset String),
      r = (GetSummaryH a).2.ByLevelRef ∨ r = (GetSummaryH a).2.ByServiceRef →
      readSummary ((GetSummaryH a).1.heap.write r m) (GetSummaryH a).1.summary =
        readSummary (GetSummaryH a).1.heap (GetSummaryH a).1.summary) := by
  obtain ⟨w1, w2, w3⟩ := hwf
  obtain ⟨s1, s2, s3, s4⟩ := GetSummaryH_store a ⟨w1, w2, w3⟩
  refine ⟨?_, ?_, ?_⟩
  · unfold readSummary
    rw [GetSummaryH_fst_summary, s1, s2, s3, s4]
    rfl
  · intro es
    have r1 : (GetSummaryH a).2.ByLevelRef ≠ (GetSummaryH a).1.summary.ByLevelRef := by
      rw [GetSummaryH_fst_summary, (GetSummaryH_snap_refs a).1]
      omega
    have r2 : (GetSummaryH a).2.ByLevelRef ≠ (GetSummaryH a).1.summary.ByServiceRef := by
      rw [GetSummaryH_fst_summary, (GetSummaryH_snap_refs a).1]
      omega
    have r3 : (GetSummaryH a).2.ByServiceRef ≠ (GetSummaryH a).1.summary.ByLevelRef := by
      rw [GetSummaryH_fst_summary, (GetSummaryH_snap_refs a).2]
      omega
    have r4 : (GetSummaryH a).2.ByServiceRef ≠ (GetSummaryH a).1.summary.ByServiceRef := by
      rw [GetSummaryH_fst_summary, (GetSummaryH_snap_refs a).2]
      omega
    have e1 := ProcessListH_store_other es (GetSummaryH a).1 (GetSummaryH a).2.ByLevelRef r1 r2
    have e2 := ProcessListH_store_other es (GetSummaryH a).1 (GetSummaryH a).2.ByServiceRef r3 r4
    unfold readSummary
    rw [e1, e2]
  · intro r m hr
    have hrbig : a.heap.next ≤ r := by
      rcases hr with h | h
      · rw [h, (GetSummaryH_snap_refs a).1]
      · rw [h, (GetSummaryH_snap_refs a).2]
        omega
    have q1 : a.summary.ByLevelRef ≠ r := by omega
    have q2 : a.summary.ByServiceRef ≠ r := by omega
    unfold readSummary
    rw [GetSummaryH_fst_summary]
    show Models.LogSummary.mk _
        (Function.update (GetSummaryH a).1.heap.store r m a.summary.ByLevelRef)
        (Function.update (GetSummaryH a).1.heap.store r m a.summary.ByServiceRef) _ =
      Models.LogSummary.mk _ _ _ _
    rw [Function.update_noteq q1, Function.update_noteq q2]

/-- Witness for C6 at the fresh heap-level analyzer: the snapshot equals the
internal summary, survives a later `Process` call, and overwriting the
snapshot's first map object (address 2) leaves the internal summary
unchanged. -/
theorem C6_snapshot_independence_witness :
    readSummary (GetSummaryH NewLogAnalyzerH).1.heap (GetSummaryH NewLogAnalyzerH).2 =
      readSummary (GetSummaryH NewLogAnalyzerH).1.heap (GetSummaryH NewLogAnalyzerH).1.summary ∧
    readSummary (ProcessListH (GetSummaryH NewLogAnalyzerH).1 [Samples.entryA]).heap
        (GetSummaryH NewLogAnalyzerH).2 =
      readSummary (GetSummaryH NewLogAnalyzerH).1.heap (GetSummaryH NewLogAnalyzerH).2 ∧
    readSummary ((GetSummaryH NewLogAnalyzerH).1.heap.write 2 0)
        (GetSummaryH NewLogAnalyzerH).1.summary =
      readSummary (GetSummaryH NewLogAnalyzerH).1.heap (GetSummaryH NewLogAnalyzerH).1.summary :=
  ⟨(C6_snapshot_independence NewLogAnalyzerH (by decide)).1,
   (C6_snapshot_independence NewLogAnalyzerH (by decide)).2.1 [Samples.entryA],
   (C6_snapshot_independence NewLogAnalyzerH (by decide)).2.2 2 0 (Or.inl rfl)⟩

end AnalyzerHeap
